import Mathlib

/-!
Shallow embedding of the LEET_BOT polling bot (`src/bot.py`).

The program keeps a registry table `users(telegram_id PRIMARY KEY,
leetcode_username, last_timestamp BIGINT DEFAULT 0)`, and on every
scheduler tick runs `poll_job`: it reads a snapshot of all rows, and for
each row fetches the most recent submission of that row's
`leetcode_username` from the external source, compares the fetched
timestamp to the stored watermark `last_timestamp`, and on
`latest_ts > last_ts` optionally sends a notification (only when
`last_ts != 0`) and then writes `last_timestamp := latest_ts` for that
`telegram_id`.

We model the registry as a list of rows, the external source as a
function from username to the list returned by `get_recent_submission`
(empty on any transport/parse failure), and the Telegram send call as an
oracle `send : String → Bool` giving the delivery outcome of each
attempted message (the code catches and logs a failed send).
-/

/-- One record of `recentSubmissionList` as consumed by `poll_job`.
`timestamp` is already parsed to an integer; a missing timestamp field is
represented by `0` (the code uses `int(latest.get("timestamp", 0))`). -/
structure Submission where
  title : String
  titleSlug : String
  timestamp : Int
  statusDisplay : String
  lang : String
deriving Repr, DecidableEq

/-- One row of the `users` table. -/
structure Row where
  telegram_id : String
  leetcode_username : String
  last_timestamp : Int
deriving Repr, DecidableEq

/-- The notification text built in `poll_job` (bot.py lines 142-146). -/
def mkMsg (username : String) (latest : Submission) : String :=
  "🚀 " ++ username ++ " just submitted:\n" ++
    latest.title ++ " (" ++ latest.statusDisplay ++ ", " ++ latest.lang ++ ")\n" ++
    "https://leetcode.com/problems/" ++ latest.titleSlug ++ "/"

/-- `UPDATE users SET last_timestamp=$1 WHERE telegram_id=$2`
(bot.py line 154). -/
def updateTs (reg : List Row) (id : String) (ts : Int) : List Row :=
  reg.map fun r => if r.telegram_id = id then { r with last_timestamp := ts } else r

/-- The body of the `for record in rows` loop of `poll_job`
(bot.py lines 125-154) for one snapshot record, acting on the live
registry.  Returns the registry after the iteration together with the
list of attempted notifications (message text paired with the delivery
outcome reported by the `send` oracle). -/
def processRecord (fetch : String → List Submission) (send : String → Bool)
    (live : List Row) (record : Row) : List Row × List (String × Bool) :=
  match fetch record.leetcode_username with
  | [] => (live, [])
  | latest :: _ =>
    let latest_ts := latest.timestamp
    let last_ts := record.last_timestamp
    if latest_ts > last_ts then
      let sends :=
        if last_ts ≠ 0 then
          let m := mkMsg record.leetcode_username latest
          [(m, send m)]
        else []
      (updateTs live record.telegram_id latest_ts, sends)
    else (live, [])

/-- The loop of `poll_job`: iterate over the snapshot rows, threading the
live registry and accumulating the attempted notifications. -/
def pollGo (fetch : String → List Submission) (send : String → Bool) :
    List Row → List Row → List (String × Bool) → List Row × List (String × Bool)
  | [], live, acc => (live, acc)
  | record :: rest, live, acc =>
    let res := processRecord fetch send live record
    pollGo fetch send rest res.1 (acc ++ res.2)

/-- One polling pass (`poll_job`, bot.py lines 120-154): read the snapshot
(equal to the registry, absent concurrent commands) and run the loop. -/
def pollJob (fetch : String → List Submission) (send : String → Bool)
    (reg : List Row) : List Row × List (String × Bool) :=
  pollGo fetch send reg reg []

/-- The per-row new state of one polling pass: with distinct primary keys
each registry row is rewritten exactly by this function (proved in
`pollJob_spec`). -/
def rowNew (fetch : String → List Submission) (r : Row) : Row :=
  match fetch r.leetcode_username with
  | [] => r
  | latest :: _ =>
    if latest.timestamp > r.last_timestamp then
      { r with last_timestamp := latest.timestamp }
    else r

/-- The notifications one row contributes to a polling pass. -/
def rowMsgs (fetch : String → List Submission) (send : String → Bool)
    (r : Row) : List (String × Bool) :=
  match fetch r.leetcode_username with
  | [] => []
  | latest :: _ =>
    if latest.timestamp > r.last_timestamp then
      if r.last_timestamp ≠ 0 then
        let m := mkMsg r.leetcode_username latest
        [(m, send m)]
      else []
    else []

/-- `INSERT INTO users ... ON CONFLICT (telegram_id) DO UPDATE SET
leetcode_username = EXCLUDED.leetcode_username` (bot.py lines 92-98). -/
def upsertUser (reg : List Row) (id name : String) : List Row :=
  if reg.any (fun r => r.telegram_id = id) then
    reg.map fun r => if r.telegram_id = id then { r with leetcode_username := name } else r
  else
    reg ++ [⟨id, name, 0⟩]

/-- Replies produced by the `/add` command handler. -/
inductive Reply where
  | usage
  | linked (name : String)
deriving Repr, DecidableEq

/-- The `/add` command handler `add_user` (bot.py lines 83-100): with any
argument count other than one it replies with the usage text and returns
before touching the database; otherwise it strips the argument and
upserts. -/
def addUser (reg : List Row) (args : List String) (telegram_id : String) :
    List Row × Reply :=
  match args with
  | [a] =>
    let name := a.trim
    (upsertUser reg telegram_id name, Reply.linked name)
  | _ => (reg, Reply.usage)

/-- `DELETE FROM users WHERE telegram_id=$1` (`remove_user`, bot.py
line 105). -/
def removeUser (reg : List Row) (id : String) : List Row :=
  reg.filter fun r => r.telegram_id ≠ id

/-- `SELECT leetcode_username FROM users ORDER BY leetcode_username`
(`list_users`, bot.py line 110). -/
def listUsers (reg : List Row) : List String :=
  (reg.map Row.leetcode_username).mergeSort fun a b => decide (a ≤ b)

/-! ### Concrete fixtures used to exercise the theorems -/

/-- A concrete submission record with the given timestamp. -/
def subAt (ts : Int) : Submission :=
  ⟨"Two Sum", "two-sum", ts, "Accepted", "python3"⟩

/-- An external source answering every username with one record. -/
def fetchAt (ts : Int) : String → List Submission := fun _ => [subAt ts]

/-- An external source that always fails (empty result). -/
def fetchNone : String → List Submission := fun _ => []

/-- An external source failing for alice but answering for bob. -/
def fetchMixed : String → List Submission := fun name =>
  if name = "alice" then [] else [subAt 7]

/-- A delivery oracle for which every send succeeds. -/
def sendAllOk : String → Bool := fun _ => true

/-- A delivery oracle for which every send fails (the code catches the
exception and continues). -/
def sendAllFail : String → Bool := fun _ => false

/-- A registry row for user alice. -/
def rowA (ts : Int) : Row := ⟨"u1", "alice", ts⟩

/-- A registry row for user bob. -/
def rowB (ts : Int) : Row := ⟨"u2", "bob", ts⟩

/-! ### Structural lemmas about one polling pass -/

theorem rowNew_telegram_id (fetch : String → List Submission) (r : Row) :
    (rowNew fetch r).telegram_id = r.telegram_id := by
  unfold rowNew
  cases fetch r.leetcode_username with
  | nil => rfl
  | cons latest tl => dsimp only; split <;> rfl

theorem rowNew_leetcode_username (fetch : String → List Submission) (r : Row) :
    (rowNew fetch r).leetcode_username = r.leetcode_username := by
  unfold rowNew
  cases fetch r.leetcode_username with
  | nil => rfl
  | cons latest tl => dsimp only; split <;> rfl

theorem rowNew_last_timestamp_ge (fetch : String → List Submission) (r : Row) :
    r.last_timestamp ≤ (rowNew fetch r).last_timestamp := by
  unfold rowNew
  cases fetch r.leetcode_username with
  | nil => exact le_refl _
  | cons latest tl =>
    dsimp only
    split
    · next h => exact le_of_lt h
    · exact le_refl _

theorem updateTs_nomatch (l : List Row) (id : String) (ts : Int)
    (h : ∀ p ∈ l, p.telegram_id ≠ id) : updateTs l id ts = l := by
  induction l with
  | nil => rfl
  | cons p rest ih =>
    have hp : p.telegram_id ≠ id := h p (List.mem_cons_self p rest)
    have hrest : ∀ q ∈ rest, q.telegram_id ≠ id := fun q hq => h q (List.mem_cons_of_mem p hq)
    simp [updateTs, hp] at ih ⊢
    exact ih hrest

theorem updateTs_append (l1 l2 : List Row) (id : String) (ts : Int) :
    updateTs (l1 ++ l2) id ts = updateTs l1 id ts ++ updateTs l2 id ts := by
  simp [updateTs]

/-- Processing one snapshot record against a live registry in which its
primary key occurs exactly once rewrites exactly that row, to
`rowNew fetch r`, and emits `rowMsgs fetch send r`. -/
theorem processRecord_split (fetch : String → List Submission) (send : String → Bool)
    (pre rest : List Row) (r : Row)
    (hpre : ∀ p ∈ pre, p.telegram_id ≠ r.telegram_id)
    (hrest : ∀ p ∈ rest, p.telegram_id ≠ r.telegram_id) :
    processRecord fetch send (pre ++ r :: rest) r =
      (pre ++ rowNew fetch r :: rest, rowMsgs fetch send r) := by
  unfold processRecord rowNew rowMsgs
  cases hf : fetch r.leetcode_username with
  | nil => rfl
  | cons latest tl =>
    dsimp only
    split
    · next hgt =>
      congr 1
      rw [updateTs_append, updateTs_nomatch pre _ _ hpre]
      simp only [updateTs, List.map_cons, if_pos rfl]
      rw [show (rest.map fun q =>
          if q.telegram_id = r.telegram_id then { q with last_timestamp := latest.timestamp } else q) = rest
        from updateTs_nomatch rest _ _ hrest]
      simp
    · rfl

/-- Loop invariant for `pollGo`: processing the remaining snapshot rows
against a live registry made of an already-processed prefix (whose keys
are disjoint from the remaining ones) followed by the untouched remaining
rows rewrites each remaining row by `rowNew` and appends each row's
`rowMsgs`, provided the remaining primary keys are distinct. -/
theorem pollGo_spec (fetch : String → List Submission) (send : String → Bool) :
    ∀ (rows pre : List Row) (acc : List (String × Bool)),
      (rows.map Row.telegram_id).Nodup →
      (∀ r ∈ rows, ∀ p ∈ pre, p.telegram_id ≠ r.telegram_id) →
      pollGo fetch send rows (pre ++ rows) acc =
        (pre ++ rows.map (rowNew fetch), acc ++ rows.flatMap (rowMsgs fetch send))
  | [], pre, acc, _, _ => by simp [pollGo]
  | r :: rest, pre, acc, hnodup, hdisj => by
    have hpre : ∀ p ∈ pre, p.telegram_id ≠ r.telegram_id :=
      fun p hp => hdisj r (List.mem_cons_self r rest) p hp
    have hnodup' : (∀ x ∈ rest, ¬x.telegram_id = r.telegram_id) ∧
        (rest.map Row.telegram_id).Nodup := by simpa using hnodup
    have hrhead : ∀ p ∈ rest, p.telegram_id ≠ r.telegram_id :=
      fun p hp => hnodup'.1 p hp
    have hstep := processRecord_split fetch send pre rest r hpre hrhead
    have hdisj2 : ∀ x ∈ rest, ∀ p ∈ pre ++ [rowNew fetch r], p.telegram_id ≠ x.telegram_id := by
      intro x hx p hp
      rcases List.mem_append.mp hp with hp1 | hp2
      · exact hdisj x (List.mem_cons_of_mem r hx) p hp1
      · have hpr : p = rowNew fetch r := by simpa using hp2
        rw [hpr, rowNew_telegram_id]
        exact fun h => hrhead x hx h.symm
    have hnodup2 : (rest.map Row.telegram_id).Nodup := hnodup'.2
    calc pollGo fetch send (r :: rest) (pre ++ r :: rest) acc
        = pollGo fetch send rest (pre ++ rowNew fetch r :: rest)
            (acc ++ rowMsgs fetch send r) := by
          simp only [pollGo, hstep]
      _ = pollGo fetch send rest ((pre ++ [rowNew fetch r]) ++ rest)
            (acc ++ rowMsgs fetch send r) := by
          simp
      _ = ((pre ++ [rowNew fetch r]) ++ rest.map (rowNew fetch),
            (acc ++ rowMsgs fetch send r) ++ rest.flatMap (rowMsgs fetch send)) := by
          exact pollGo_spec fetch send rest (pre ++ [rowNew fetch r])
            (acc ++ rowMsgs fetch send r) hnodup2 hdisj2
      _ = (pre ++ (r :: rest).map (rowNew fetch),
            acc ++ (r :: rest).flatMap (rowMsgs fetch send)) := by
          simp

/-- With distinct primary keys (the database's PRIMARY KEY constraint),
one polling pass rewrites every row independently by `rowNew` and emits
exactly the concatenation of each row's `rowMsgs`. -/
theorem pollJob_spec (fetch : String → List Submission) (send : String → Bool)
    (reg : List Row) (hnodup : (reg.map Row.telegram_id).Nodup) :
    pollJob fetch send reg =
      (reg.map (rowNew fetch), reg.flatMap (rowMsgs fetch send)) := by
  have h := pollGo_spec fetch send reg [] [] hnodup (by simp)
  simpa [pollJob] using h

theorem rowNew_eq_of_fetch_nil (fetch : String → List Submission) (r : Row)
    (hf : fetch r.leetcode_username = []) : rowNew fetch r = r := by
  unfold rowNew
  rw [hf]

theorem rowNew_eq_of_fetch (fetch : String → List Submission) (r : Row)
    (latest : Submission) (tl : List Submission)
    (hf : fetch r.leetcode_username = latest :: tl) :
    rowNew fetch r =
      if latest.timestamp > r.last_timestamp then
        { r with last_timestamp := latest.timestamp }
      else r := by
  unfold rowNew
  rw [hf]

theorem rowMsgs_eq_of_fetch_nil (fetch : String → List Submission)
    (send : String → Bool) (r : Row)
    (hf : fetch r.leetcode_username = []) : rowMsgs fetch send r = [] := by
  unfold rowMsgs
  rw [hf]

theorem rowMsgs_eq_of_fetch (fetch : String → List Submission)
    (send : String → Bool) (r : Row) (latest : Submission) (tl : List Submission)
    (hf : fetch r.leetcode_username = latest :: tl) :
    rowMsgs fetch send r =
      if latest.timestamp > r.last_timestamp then
        if r.last_timestamp ≠ 0 then
          [(mkMsg r.leetcode_username latest,
            send (mkMsg r.leetcode_username latest))]
        else []
      else [] := by
  unfold rowMsgs
  rw [hf]

/-- A second pass over an already-updated row changes nothing. -/
theorem rowNew_fixpoint (fetch : String → List Submission) (r : Row) :
    rowNew fetch (rowNew fetch r) = rowNew fetch r := by
  cases hf : fetch r.leetcode_username with
  | nil =>
    rw [rowNew_eq_of_fetch_nil fetch r hf, rowNew_eq_of_fetch_nil fetch r hf]
  | cons latest tl =>
    rw [rowNew_eq_of_fetch fetch r latest tl hf]
    split
    · next hgt =>
      have hf' : fetch (Row.mk r.telegram_id r.leetcode_username
          latest.timestamp).leetcode_username = latest :: tl := hf
      rw [rowNew_eq_of_fetch fetch _ latest tl hf']
      simp
    · next hgt =>
      rw [rowNew_eq_of_fetch fetch r latest tl hf]
      simp [hgt]

/-- A second pass over an already-updated row emits no notification. -/
theorem rowMsgs_rowNew (fetch : String → List Submission) (send : String → Bool)
    (r : Row) : rowMsgs fetch send (rowNew fetch r) = [] := by
  cases hf : fetch r.leetcode_username with
  | nil =>
    rw [rowNew_eq_of_fetch_nil fetch r hf, rowMsgs_eq_of_fetch_nil fetch send r hf]
  | cons latest tl =>
    rw [rowNew_eq_of_fetch fetch r latest tl hf]
    split
    · next hgt =>
      have hf' : fetch (Row.mk r.telegram_id r.leetcode_username
          latest.timestamp).leetcode_username = latest :: tl := hf
      rw [rowMsgs_eq_of_fetch fetch send _ latest tl hf']
      simp
    · next hgt =>
      rw [rowMsgs_eq_of_fetch fetch send r latest tl hf]
      simp [hgt]

theorem flatMap_eq_nil_of_all {α β : Type} (l : List α) (f : α → List β)
    (h : ∀ x ∈ l, f x = []) : l.flatMap f = [] := by
  induction l with
  | nil => rfl
  | cons a rest ih =>
    have ha : f a = [] := h a (List.mem_cons_self a rest)
    have hrest := ih fun x hx => h x (List.mem_cons_of_mem a hx)
    simp [ha, hrest]

/-- The registry outcome of one loop iteration does not depend on the
delivery oracle: a failed Telegram send is caught and logged, and the
watermark update runs regardless. -/
theorem processRecord_fst_send (fetch : String → List Submission)
    (s1 s2 : String → Bool) (live : List Row) (r : Row) :
    (processRecord fetch s1 live r).1 = (processRecord fetch s2 live r).1 := by
  unfold processRecord
  cases fetch r.leetcode_username with
  | nil => rfl
  | cons latest tl =>
    dsimp only
    split <;> rfl

/-- The attempted message texts of one loop iteration do not depend on
the delivery oracle either. -/
theorem processRecord_msgs_send (fetch : String → List Submission)
    (s1 s2 : String → Bool) (live : List Row) (r : Row) :
    (processRecord fetch s1 live r).2.map Prod.fst =
      (processRecord fetch s2 live r).2.map Prod.fst := by
  unfold processRecord
  cases fetch r.leetcode_username with
  | nil => rfl
  | cons latest tl =>
    dsimp only
    split
    · split <;> rfl
    · rfl

theorem pollGo_send_invariant (fetch : String → List Submission)
    (s1 s2 : String → Bool) :
    ∀ (rows live : List Row) (acc1 acc2 : List (String × Bool)),
      acc1.map Prod.fst = acc2.map Prod.fst →
      (pollGo fetch s1 rows live acc1).1 = (pollGo fetch s2 rows live acc2).1 ∧
      (pollGo fetch s1 rows live acc1).2.map Prod.fst =
        (pollGo fetch s2 rows live acc2).2.map Prod.fst
  | [], live, acc1, acc2, h => ⟨rfl, h⟩
  | r :: rest, live, acc1, acc2, h => by
    have h1 := processRecord_fst_send fetch s1 s2 live r
    have h2 := processRecord_msgs_send fetch s1 s2 live r
    simp only [pollGo]
    rw [h1]
    exact pollGo_send_invariant fetch s1 s2 rest _ _ _ (by simp [h, h2])

/-! ### Claims -/

/-- C1, counterexample: with stored watermark `5 > 0` and a fetched
record with timestamp `3 > 0` and `3 ≠ 5`, the claim says the pass sends
exactly one notification and sets the watermark to `3`; the code
(`if latest_ts > last_ts`, bot.py line 139) instead sends nothing and
leaves the row unchanged. -/
theorem c1_counterexample :
    0 < (rowA 5).last_timestamp ∧ 0 < (subAt 3).timestamp ∧
    (subAt 3).timestamp ≠ (rowA 5).last_timestamp ∧
    pollJob (fetchAt 3) sendAllOk [rowA 5] = ([rowA 5], []) :=
  ⟨by decide, by decide, by decide, rfl⟩

/-- C1, amended: for an account with stored watermark `last_ts > 0` and a
fetched record with timestamp `latest_ts`, one polling pass sends exactly
one notification and advances the watermark to `latest_ts` precisely when
`latest_ts > last_ts`; when `latest_ts ≤ last_ts` (even if nonzero and
different) the account is left unchanged and nothing is sent.  Each
account's contribution to the pass is its own `rowNew`/`rowMsgs`. -/
theorem c1_notify_only_strictly_newer
    (fetch : String → List Submission) (send : String → Bool)
    (reg : List Row) (r : Row) (latest : Submission) (tl : List Submission)
    (hnodup : (reg.map Row.telegram_id).Nodup)
    (hmem : r ∈ reg)
    (hfetch : fetch r.leetcode_username = latest :: tl)
    (hpos : 0 < r.last_timestamp) :
    (pollJob fetch send reg).1 = reg.map (rowNew fetch) ∧
    (pollJob fetch send reg).2 = reg.flatMap (rowMsgs fetch send) ∧
    (r.last_timestamp < latest.timestamp →
      rowNew fetch r = { r with last_timestamp := latest.timestamp } ∧
      rowMsgs fetch send r =
        [(mkMsg r.leetcode_username latest,
          send (mkMsg r.leetcode_username latest))]) ∧
    (latest.timestamp ≤ r.last_timestamp →
      rowNew fetch r = r ∧ rowMsgs fetch send r = []) := by
  have hspec := pollJob_spec fetch send reg hnodup
  refine ⟨by rw [hspec], by rw [hspec], ?_, ?_⟩
  · intro hlt
    constructor
    · rw [rowNew_eq_of_fetch fetch r latest tl hfetch, if_pos hlt]
    · rw [rowMsgs_eq_of_fetch fetch send r latest tl hfetch, if_pos hlt,
        if_pos (by omega)]
  · intro hle
    have hno : ¬ latest.timestamp > r.last_timestamp := not_lt.mpr hle
    constructor
    · rw [rowNew_eq_of_fetch fetch r latest tl hfetch, if_neg hno]
    · rw [rowMsgs_eq_of_fetch fetch send r latest tl hfetch, if_neg hno]

/-- C1 witness: the amended theorem applied to the one-account registry
with watermark 5 and a fetch returning timestamp 7. -/
theorem c1_notify_only_strictly_newer_witness :
    (pollJob (fetchAt 7) sendAllOk [rowA 5]).1 = [rowA 5].map (rowNew (fetchAt 7)) ∧
    (pollJob (fetchAt 7) sendAllOk [rowA 5]).2 =
      [rowA 5].flatMap (rowMsgs (fetchAt 7) sendAllOk) ∧
    ((rowA 5).last_timestamp < (subAt 7).timestamp →
      rowNew (fetchAt 7) (rowA 5) = { rowA 5 with last_timestamp := (subAt 7).timestamp } ∧
      rowMsgs (fetchAt 7) sendAllOk (rowA 5) =
        [(mkMsg (rowA 5).leetcode_username (subAt 7),
          sendAllOk (mkMsg (rowA 5).leetcode_username (subAt 7)))]) ∧
    ((subAt 7).timestamp ≤ (rowA 5).last_timestamp →
      rowNew (fetchAt 7) (rowA 5) = rowA 5 ∧
      rowMsgs (fetchAt 7) sendAllOk (rowA 5) = []) :=
  c1_notify_only_strictly_newer (fetchAt 7) sendAllOk [rowA 5] (rowA 5) (subAt 7) []
    (by decide) (by decide) rfl (by decide)

/-- C2: for an account with stored watermark 0 whose fetch returns a
record with timestamp `T > 0`, the pass advances the watermark to `T` and
sends no notification (bootstrap). -/
theorem c2_bootstrap
    (fetch : String → List Submission) (send : String → Bool)
    (reg : List Row) (r : Row) (latest : Submission) (tl : List Submission)
    (hnodup : (reg.map Row.telegram_id).Nodup)
    (hmem : r ∈ reg)
    (hfetch : fetch r.leetcode_username = latest :: tl)
    (hzero : r.last_timestamp = 0)
    (hpos : 0 < latest.timestamp) :
    (pollJob fetch send reg).1 = reg.map (rowNew fetch) ∧
    (pollJob fetch send reg).2 = reg.flatMap (rowMsgs fetch send) ∧
    rowNew fetch r = { r with last_timestamp := latest.timestamp } ∧
    rowMsgs fetch send r = [] := by
  have hspec := pollJob_spec fetch send reg hnodup
  have hgt : latest.timestamp > r.last_timestamp := by omega
  refine ⟨by rw [hspec], by rw [hspec], ?_, ?_⟩
  · rw [rowNew_eq_of_fetch fetch r latest tl hfetch, if_pos hgt]
  · rw [rowMsgs_eq_of_fetch fetch send r latest tl hfetch, if_pos hgt,
      if_neg (by omega)]

/-- C2 witness: bootstrap on a fresh account (watermark 0) with a fetch
returning timestamp 7. -/
theorem c2_bootstrap_witness :
    (pollJob (fetchAt 7) sendAllOk [rowA 0]).1 = [rowA 0].map (rowNew (fetchAt 7)) ∧
    (pollJob (fetchAt 7) sendAllOk [rowA 0]).2 =
      [rowA 0].flatMap (rowMsgs (fetchAt 7) sendAllOk) ∧
    rowNew (fetchAt 7) (rowA 0) = { rowA 0 with last_timestamp := (subAt 7).timestamp } ∧
    rowMsgs (fetchAt 7) sendAllOk (rowA 0) = [] :=
  c2_bootstrap (fetchAt 7) sendAllOk [rowA 0] (rowA 0) (subAt 7) []
    (by decide) (by decide) rfl (by decide) (by decide)

/-- C3: when the fetched timestamp equals the stored watermark, or the
fetched timestamp is 0 (a missing timestamp field) while the stored
watermark is non-negative (its reachable range: it starts at 0 and only
ever increases), the pass neither notifies nor writes: the row is left
entirely unchanged. -/
theorem c3_noop_same_or_zero
    (fetch : String → List Submission) (send : String → Bool)
    (reg : List Row) (r : Row) (latest : Submission) (tl : List Submission)
    (hnodup : (reg.map Row.telegram_id).Nodup)
    (hmem : r ∈ reg)
    (hfetch : fetch r.leetcode_username = latest :: tl)
    (hcase : latest.timestamp = r.last_timestamp ∨
      (latest.timestamp = 0 ∧ 0 ≤ r.last_timestamp)) :
    (pollJob fetch send reg).1 = reg.map (rowNew fetch) ∧
    (pollJob fetch send reg).2 = reg.flatMap (rowMsgs fetch send) ∧
    rowNew fetch r = r ∧ rowMsgs fetch send r = [] := by
  have hspec := pollJob_spec fetch send reg hnodup
  have hno : ¬ latest.timestamp > r.last_timestamp := by
    rcases hcase with h | ⟨h1, h2⟩ <;> omega
  refine ⟨by rw [hspec], by rw [hspec], ?_, ?_⟩
  · rw [rowNew_eq_of_fetch fetch r latest tl hfetch, if_neg hno]
  · rw [rowMsgs_eq_of_fetch fetch send r latest tl hfetch, if_neg hno]

/-- C3 witness: an unchanged fetched timestamp (5 = 5) produces no
notification and no write. -/
theorem c3_noop_same_or_zero_witness :
    (pollJob (fetchAt 5) sendAllOk [rowA 5]).1 = [rowA 5].map (rowNew (fetchAt 5)) ∧
    (pollJob (fetchAt 5) sendAllOk [rowA 5]).2 =
      [rowA 5].flatMap (rowMsgs (fetchAt 5) sendAllOk) ∧
    rowNew (fetchAt 5) (rowA 5) = rowA 5 ∧
    rowMsgs (fetchAt 5) sendAllOk (rowA 5) = [] :=
  c3_noop_same_or_zero (fetchAt 5) sendAllOk [rowA 5] (rowA 5) (subAt 5) []
    (by decide) (by decide) rfl (Or.inl (by decide))

/-- C4: in the notify case, the delivery outcome is immaterial: the
registry produced by the pass and the attempted message texts are
identical under any two delivery oracles, the watermark still advances to
the fetched timestamp, and the pass runs to completion (the send error is
caught and logged, bot.py lines 147-150). -/
theorem c4_delivery_failure_still_advances
    (fetch : String → List Submission) (s1 s2 : String → Bool)
    (reg : List Row) (r : Row) (latest : Submission) (tl : List Submission)
    (hnodup : (reg.map Row.telegram_id).Nodup)
    (hmem : r ∈ reg)
    (hfetch : fetch r.leetcode_username = latest :: tl)
    (hgt : r.last_timestamp < latest.timestamp) :
    (pollJob fetch s1 reg).1 = reg.map (rowNew fetch) ∧
    (pollJob fetch s1 reg).1 = (pollJob fetch s2 reg).1 ∧
    (pollJob fetch s1 reg).2.map Prod.fst = (pollJob fetch s2 reg).2.map Prod.fst ∧
    rowNew fetch r = { r with last_timestamp := latest.timestamp } := by
  have hspec := pollJob_spec fetch s1 reg hnodup
  have hinv := pollGo_send_invariant fetch s1 s2 reg reg [] [] rfl
  refine ⟨by rw [hspec], hinv.1, hinv.2, ?_⟩
  rw [rowNew_eq_of_fetch fetch r latest tl hfetch, if_pos hgt]

/-- C4 witness: a pass on which every send fails produces the same
registry and the same attempted messages as one on which every send
succeeds, and the watermark of the stale account advances to 7. -/
theorem c4_delivery_failure_still_advances_witness :
    (pollJob (fetchAt 7) sendAllFail [rowA 5]).1 = [rowA 5].map (rowNew (fetchAt 7)) ∧
    (pollJob (fetchAt 7) sendAllFail [rowA 5]).1 =
      (pollJob (fetchAt 7) sendAllOk [rowA 5]).1 ∧
    (pollJob (fetchAt 7) sendAllFail [rowA 5]).2.map Prod.fst =
      (pollJob (fetchAt 7) sendAllOk [rowA 5]).2.map Prod.fst ∧
    rowNew (fetchAt 7) (rowA 5) = { rowA 5 with last_timestamp := (subAt 7).timestamp } :=
  c4_delivery_failure_still_advances (fetchAt 7) sendAllFail sendAllOk
    [rowA 5] (rowA 5) (subAt 7) [] (by decide) (by decide) rfl (by decide)

/-- C5: if the owner is already registered, the upsert keeps every
primary key and every watermark unchanged, rewrites the owner's
`leetcode_username` to the new name, and leaves every other row exactly
as it was; if the owner is absent, the upsert appends a fresh record with
watermark 0. -/
theorem c5_reregistration_preserves_watermark
    (reg : List Row) (id name : String) :
    ((∃ r0 ∈ reg, r0.telegram_id = id) →
      (upsertUser reg id name).map Row.telegram_id = reg.map Row.telegram_id ∧
      (upsertUser reg id name).map Row.last_timestamp = reg.map Row.last_timestamp ∧
      (∀ r ∈ upsertUser reg id name, r.telegram_id = id → r.leetcode_username = name) ∧
      (∀ r ∈ upsertUser reg id name, r.telegram_id ≠ id → r ∈ reg)) ∧
    ((∀ r0 ∈ reg, r0.telegram_id ≠ id) →
      upsertUser reg id name = reg ++ [⟨id, name, 0⟩]) := by
  constructor
  · rintro ⟨r0, hr0, hid⟩
    have hany : (reg.any fun r => r.telegram_id = id) = true :=
      List.any_eq_true.mpr ⟨r0, hr0, by simp [hid]⟩
    unfold upsertUser
    rw [if_pos hany]
    refine ⟨?_, ?_, ?_, ?_⟩
    · rw [List.map_map]
      apply List.map_congr_left
      intro r hr
      by_cases h : r.telegram_id = id <;> simp [h, Function.comp]
    · rw [List.map_map]
      apply List.map_congr_left
      intro r hr
      by_cases h : r.telegram_id = id <;> simp [h, Function.comp]
    · intro r hr hrid
      obtain ⟨r1, hr1, rfl⟩ := List.mem_map.mp hr
      by_cases h : r1.telegram_id = id
      · simp [h]
      · simp only [if_neg h] at hrid ⊢
        exact absurd hrid h
    · intro r hr hrne
      obtain ⟨r1, hr1, rfl⟩ := List.mem_map.mp hr
      by_cases h : r1.telegram_id = id
      · exact absurd (by simp [h]) hrne
      · simpa [h] using hr1
  · intro habs
    have hany : ¬ ((reg.any fun r => r.telegram_id = id) = true) := by
      rw [List.any_eq_true]
      rintro ⟨r0, hr0, hid⟩
      exact habs r0 hr0 (by simpa using hid)
    unfold upsertUser
    rw [if_neg hany]

/-- C5 witness: re-registering owner u1 (present, watermark 5) keeps the
watermark and key and changes only the name; registering owner u1 on a
registry that only holds u2 appends a fresh record with watermark 0. -/
theorem c5_reregistration_preserves_watermark_witness :
    ((upsertUser [rowA 5] "u1" "newname").map Row.telegram_id =
        [rowA 5].map Row.telegram_id ∧
      (upsertUser [rowA 5] "u1" "newname").map Row.last_timestamp =
        [rowA 5].map Row.last_timestamp ∧
      (∀ r ∈ upsertUser [rowA 5] "u1" "newname",
        r.telegram_id = "u1" → r.leetcode_username = "newname") ∧
      (∀ r ∈ upsertUser [rowA 5] "u1" "newname",
        r.telegram_id ≠ "u1" → r ∈ [rowA 5])) ∧
    upsertUser [rowB 5] "u1" "alice" = [rowB 5] ++ [⟨"u1", "alice", 0⟩] :=
  ⟨(c5_reregistration_preserves_watermark [rowA 5] "u1" "newname").1
      ⟨rowA 5, by decide, rfl⟩,
    (c5_reregistration_preserves_watermark [rowB 5] "u1" "alice").2
      (by decide)⟩

/-- C6: a failed fetch (the code returns `[]` for any transport or parse
error, bot.py lines 66-73) makes the pass skip that account with no state
change, and every other account's outcome in the same pass is still
exactly its own `rowNew`/`rowMsgs`, unaffected by the failure. -/
theorem c6_fetch_failure_isolated
    (fetch : String → List Submission) (send : String → Bool)
    (reg : List Row) (rA : Row)
    (hnodup : (reg.map Row.telegram_id).Nodup)
    (hmem : rA ∈ reg)
    (hfail : fetch rA.leetcode_username = []) :
    rowNew fetch rA = rA ∧ rowMsgs fetch send rA = [] ∧
    (pollJob fetch send reg).1 = reg.map (rowNew fetch) ∧
    (pollJob fetch send reg).2 = reg.flatMap (rowMsgs fetch send) := by
  have hspec := pollJob_spec fetch send reg hnodup
  exact ⟨rowNew_eq_of_fetch_nil fetch rA hfail,
    rowMsgs_eq_of_fetch_nil fetch send rA hfail,
    by rw [hspec], by rw [hspec]⟩

/-- C6 witness: with a source that fails for alice and answers timestamp
7 for bob, alice's row is untouched while the pass still decomposes into
per-row outcomes (and bob, stale at 5, is notified). -/
theorem c6_fetch_failure_isolated_witness :
    rowNew fetchMixed (rowA 5) = rowA 5 ∧
    rowMsgs fetchMixed sendAllOk (rowA 5) = [] ∧
    (pollJob fetchMixed sendAllOk [rowA 5, rowB 5]).1 =
      [rowA 5, rowB 5].map (rowNew fetchMixed) ∧
    (pollJob fetchMixed sendAllOk [rowA 5, rowB 5]).2 =
      [rowA 5, rowB 5].flatMap (rowMsgs fetchMixed sendAllOk) :=
  c6_fetch_failure_isolated fetchMixed sendAllOk [rowA 5, rowB 5] (rowA 5)
    (by decide) (by decide) rfl

/-- C7: when the external source returns the same records in two
consecutive passes, the second pass leaves the registry exactly as the
first pass left it and emits zero notifications. -/
theorem c7_idempotent_second_pass
    (fetch : String → List Submission) (send : String → Bool)
    (reg : List Row)
    (hnodup : (reg.map Row.telegram_id).Nodup) :
    (pollJob fetch send ((pollJob fetch send reg).1)).1 =
      (pollJob fetch send reg).1 ∧
    (pollJob fetch send ((pollJob fetch send reg).1)).2 = [] := by
  have hspec := pollJob_spec fetch send reg hnodup
  have hst : (pollJob fetch send reg).1 = reg.map (rowNew fetch) := by rw [hspec]
  have hkeys : (reg.map (rowNew fetch)).map Row.telegram_id = reg.map Row.telegram_id := by
    rw [List.map_map]
    exact List.map_congr_left fun r hr => rowNew_telegram_id fetch r
  have hnodup2 : ((reg.map (rowNew fetch)).map Row.telegram_id).Nodup := by
    rw [hkeys]; exact hnodup
  have hspec2 := pollJob_spec fetch send (reg.map (rowNew fetch)) hnodup2
  constructor
  · rw [hst, hspec2]
    rw [List.map_map]
    exact List.map_congr_left fun r hr => rowNew_fixpoint fetch r
  · rw [hst, hspec2]
    apply flatMap_eq_nil_of_all
    intro x hx
    obtain ⟨r, hr, rfl⟩ := List.mem_map.mp hx
    exact rowMsgs_rowNew fetch send r

/-- C7 witness: second pass after processing timestamp 7 on a stale
account changes nothing and sends nothing. -/
theorem c7_idempotent_second_pass_witness :
    (pollJob (fetchAt 7) sendAllOk ((pollJob (fetchAt 7) sendAllOk [rowA 5]).1)).1 =
      (pollJob (fetchAt 7) sendAllOk [rowA 5]).1 ∧
    (pollJob (fetchAt 7) sendAllOk ((pollJob (fetchAt 7) sendAllOk [rowA 5]).1)).2 = [] :=
  c7_idempotent_second_pass (fetchAt 7) sendAllOk [rowA 5] (by decide)

/-- C8: the watermark never decreases while a record exists: a polling
pass rewrites each row keeping its key and a watermark at least as large,
and a (re-)registration leaves for every pre-existing row a row with the
same key and a watermark at least as large (in fact equal). -/
theorem c8_watermark_monotone
    (fetch : String → List Submission) (send : String → Bool)
    (reg : List Row) (id name : String)
    (hnodup : (reg.map Row.telegram_id).Nodup) :
    List.Forall₂
      (fun r r2 => r.telegram_id = r2.telegram_id ∧
        r.last_timestamp ≤ r2.last_timestamp)
      reg (pollJob fetch send reg).1 ∧
    (∀ r ∈ reg, ∃ r2 ∈ upsertUser reg id name,
      r2.telegram_id = r.telegram_id ∧ r.last_timestamp ≤ r2.last_timestamp) := by
  constructor
  · have hspec := pollJob_spec fetch send reg hnodup
    have hst : (pollJob fetch send reg).1 = reg.map (rowNew fetch) := by rw [hspec]
    rw [hst, List.forall₂_map_right_iff]
    rw [List.forall₂_same]
    intro r hr
    exact ⟨(rowNew_telegram_id fetch r).symm, rowNew_last_timestamp_ge fetch r⟩
  · intro r hr
    unfold upsertUser
    split
    · refine ⟨if r.telegram_id = id then { r with leetcode_username := name } else r,
        List.mem_map_of_mem _ hr, ?_⟩
      by_cases h : r.telegram_id = id <;> simp [h]
    · exact ⟨r, List.mem_append_left _ hr, rfl, le_refl _⟩

/-- C8 witness: applied to a one-account registry with watermark 5, a
fetch at 7, and a re-registration of the same owner. -/
theorem c8_watermark_monotone_witness :
    List.Forall₂
      (fun r r2 => r.telegram_id = r2.telegram_id ∧
        r.last_timestamp ≤ r2.last_timestamp)
      [rowA 5] (pollJob (fetchAt 7) sendAllOk [rowA 5]).1 ∧
    (∀ r ∈ [rowA 5], ∃ r2 ∈ upsertUser [rowA 5] "u1" "newname",
      r2.telegram_id = r.telegram_id ∧ r.last_timestamp ≤ r2.last_timestamp) :=
  c8_watermark_monotone (fetchAt 7) sendAllOk [rowA 5] "u1" "newname" (by decide)

/-- C9: the listing returns exactly the registered external names (one
per account, a permutation of the registry's name column) in ascending
order. -/
theorem c9_listing_sorted_names (reg : List Row) :
    (listUsers reg).Perm (reg.map Row.leetcode_username) ∧
    List.Sorted (fun a b : String => a ≤ b) (listUsers reg) := by
  constructor
  · exact List.mergeSort_perm _ _
  · have htrans : ∀ a b c : String,
        (decide (a ≤ b)) → (decide (b ≤ c)) → (decide (a ≤ c)) := by
      intro a b c h1 h2
      exact decide_eq_true (le_trans (of_decide_eq_true h1) (of_decide_eq_true h2))
    have htotal : ∀ a b : String, (decide (a ≤ b) || decide (b ≤ a)) = true := by
      intro a b
      simpa using le_total a b
    have h := @List.sorted_mergeSort String (fun a b => decide (a ≤ b))
      htrans htotal (reg.map Row.leetcode_username)
    exact h.imp fun hab => of_decide_eq_true hab

/-- C10: invoking `/add` with an argument count other than one leaves the
registry untouched and produces only the usage reply. -/
theorem c10_usage_error_no_write
    (reg : List Row) (args : List String) (id : String)
    (h : args.length ≠ 1) :
    addUser reg args id = (reg, Reply.usage) := by
  cases args with
  | nil => rfl
  | cons a rest =>
    cases rest with
    | nil => exact absurd rfl h
    | cons b rest2 => rfl

/-- C10 witness: two arguments produce the usage reply and no registry
change. -/
theorem c10_usage_error_no_write_witness :
    addUser [rowA 5] ["alice", "bob"] "u1" = ([rowA 5], Reply.usage) :=
  c10_usage_error_no_write [rowA 5] ["alice", "bob"] "u1" (by decide)
